import Mathlib

/-!
Shallow embedding of the rudiments step-sequencer core
(src/steps.rs, src/pattern.rs, src/audio.rs).

Machine floats (f32) are modelled by rationals; u8 velocities by Nat.
Parsers (nom combinators) are modelled as functions from character lists
to an optional pair of remaining input and output, mirroring IResult.
HashMaps are modelled by association lists.
-/

set_option autoImplicit false

namespace Rudiments

/-- One step of a sequence: MIDI velocity and frequency.
Embeds the element type of steps.rs `Steps(Vec<(u8, f32)>)`. -/
abbrev Step : Type := Nat × ℚ

/-- A step sequence, steps.rs `Steps`. -/
abbrev Steps : Type := List Step

/-- steps.rs `Steps::zeros`: a sequence of the given length, all `(0, 0.0)`. -/
def Steps.zeros (n : Nat) : Steps := List.replicate n ((0 : Nat), (0 : ℚ))

/-- steps.rs `Steps::union`: zip the two sequences and keep, at each
position, the left step when its velocity is strictly greater, the right
step otherwise. -/
def Steps.union (a b : Steps) : Steps :=
  List.zipWith (fun s t => if s.1 > t.1 then s else t) a b

/-- pattern.rs `Amplitude`: a playback amplitude (f32 modelled as ℚ). -/
abbrev Amplitude : Type := ℚ

/-- pattern.rs `Amplitude::max`. -/
def Amplitude.max : Amplitude := 1

/-- pattern.rs `Amplitude::min`: `self.0.min(other.0)` — the smaller of
the two amplitudes (f32::min on the ordinary, non-NaN values that occur
here). -/
def Amplitude.min (a other : Amplitude) : Amplitude :=
  if a ≤ other then a else other

/-- pattern.rs `Amplitude::defaulting`: `o.unwrap_or(1.0)`. -/
def Amplitude.defaulting (o : Option ℚ) : Amplitude := o.getD 1

/-- pattern.rs `Instrument`. -/
abbrev Instrument : Type := String

/-- pattern.rs `Pattern`: instrument to (steps, amplitude), the HashMap
modelled as an association list with distinct keys. -/
abbrev Pattern : Type := List (Instrument × (Steps × Amplitude))

/-- The error kinds of error.rs that pattern.rs raises while parsing. -/
inductive Err : Type where
  | ParseError : String → Err
  | DuplicatePatternError : String → Err
  deriving DecidableEq

/- ### The pattern grammar (pattern.rs, nom combinators) -/

/-- nom `space0`: drop leading spaces and tabs. -/
def isSpaceTab (c : Char) : Bool := c == ' ' || c == '\t'

/-- nom `space0` over a character list. -/
def space0 (s : List Char) : List Char := s.dropWhile isSpaceTab

/-- pattern.rs `parse_instrument`: nom `is_not " \t"` — a non-empty maximal
run of characters that are neither space nor tab; fails when empty. -/
def parse_instrument (s : List Char) : Option (List Char × List Char) :=
  let i := s.takeWhile (fun c => !(isSpaceTab c))
  if i.isEmpty then none else some (s.dropWhile (fun c => !(isSpaceTab c)), i)

/-- The step-token alphabet wired into pattern.rs `parse_steps`:
`x`, `-`, `|`, and the notes `A`, `B`, `C`, `D`. Returns `none` for a
non-token character, `some none` for the separator `|` (no step pushed),
and `some (some st)` for a token that pushes the step `st`. -/
def stepTok (c : Char) : Option (Option Step) :=
  if c == 'x' then some (some (255, 440))
  else if c == '-' then some (some (0, 0))
  else if c == '|' then some none
  else if c == 'A' then some (some (255, 440))
  else if c == 'B' then some (some (255, 49388 / 100))
  else if c == 'C' then some (some (255, 52325 / 100))
  else if c == 'D' then some (some (63, 58733 / 100))
  else none

/-- The step pushed by a token character, `none` for the separator.
`Option.join` of `stepTok`. -/
def stepOf (c : Char) : Option Step := (stepTok c).join

/-- The folding loop of pattern.rs `parse_steps` (nom `fold_many1`):
consume token characters while they match, pushing the corresponding
steps; stop at the first non-token character. -/
def parseStepsAux : List Char → Steps → (List Char × Steps)
  | [], acc => ([], acc)
  | c :: rest, acc =>
    match stepTok c with
    | none => (c :: rest, acc)
    | some none => parseStepsAux rest acc
    | some (some st) => parseStepsAux rest (acc ++ [st])

/-- pattern.rs `parse_steps`: `fold_many1` over the token alternatives
(fails when the very first character is not a token), then nom `verify`
that the accumulated sequence is non-empty. -/
def parse_steps (s : List Char) : Option (List Char × Steps) :=
  match s with
  | [] => none
  | c :: _ =>
    if (stepTok c).isNone then none
    else
      let r := parseStepsAux s []
      if 0 < r.2.length then some r else none

/-- Numeric value of a digit run. -/
def natOfDigits (ds : List Char) : Nat :=
  ds.foldl (fun acc c => 10 * acc + (c.toNat - 48)) 0

/-- nom `float` (the decimal recogniser used by pattern.rs
`parse_amplitude`), modelled over ℚ: optional sign, then either a digit
run with an optional fraction or a bare fraction, then an optional
exponent; fails without consuming anything when no mantissa is present. -/
def parseFloat (s : List Char) : Option (ℚ × List Char) :=
  let sgn : ℚ × List Char :=
    match s with
    | '+' :: r => (1, r)
    | '-' :: r => (-1, r)
    | _ => (1, s)
  let s1 := sgn.2
  let ds := s1.takeWhile Char.isDigit
  let r1 := s1.dropWhile Char.isDigit
  let mant : Option (ℚ × List Char) :=
    if ds.isEmpty then
      match r1 with
      | '.' :: r2 =>
        let fs := r2.takeWhile Char.isDigit
        if fs.isEmpty then none
        else some ((natOfDigits fs : ℚ) / (10 : ℚ) ^ fs.length, r2.dropWhile Char.isDigit)
      | _ => none
    else
      match r1 with
      | '.' :: r2 =>
        let fs := r2.takeWhile Char.isDigit
        some ((natOfDigits ds : ℚ) + (natOfDigits fs : ℚ) / (10 : ℚ) ^ fs.length,
              r2.dropWhile Char.isDigit)
      | _ => some ((natOfDigits ds : ℚ), r1)
  match mant with
  | none => none
  | some (m, r3) =>
    match r3 with
    | c :: r4 =>
      if c == 'e' || c == 'E' then
        let esgn : ℤ × List Char :=
          match r4 with
          | '+' :: r => (1, r)
          | '-' :: r => (-1, r)
          | _ => (1, r4)
        let es := esgn.2.takeWhile Char.isDigit
        if es.isEmpty then some (sgn.1 * m, r3)
        else some (sgn.1 * m * (10 : ℚ) ^ (esgn.1 * (natOfDigits es : ℤ)),
                   esgn.2.dropWhile Char.isDigit)
      else some (sgn.1 * m, r3)
    | [] => some (sgn.1 * m, [])

/-- pattern.rs `parse_amplitude`: nom `verify(opt(float), in [0,1])` —
an absent number is accepted as `none`; a parsed number is accepted only
when it lies in `[0, 1]` inclusive. -/
def parse_amplitude (s : List Char) : Option (List Char × Option ℚ) :=
  match parseFloat s with
  | some (v, r) => if 0 ≤ v ∧ v ≤ 1 then some (r, some v) else none
  | none => some (s, none)

/-- pattern.rs `parse_track`: `space0`, instrument, `space0`, steps,
`space0`, amplitude, then `all_consuming(space0)` — the whole line must
be consumed. Yields the (instrument, steps, amplitude) triple. -/
def parse_track (s : List Char) : Option (Instrument × (Steps × Amplitude)) :=
  match parse_instrument (space0 s) with
  | none => none
  | some (s1, instr) =>
    match parse_steps (space0 s1) with
    | none => none
    | some (s2, steps) =>
      match parse_amplitude (space0 s2) with
      | none => none
      | some (s3, amp) =>
        if (space0 s3).isEmpty then
          some (String.mk instr, (steps, Amplitude.defaulting amp))
        else none

/-- The line loop of pattern.rs `Pattern::parse`: parse each line as a
track, inserting it into the accumulated map; a line that fails to parse
raises `ParseError`, a line whose instrument is already a key raises
`DuplicatePatternError`. -/
def parseLines : List String → Pattern → Except Err Pattern
  | [], m => .ok m
  | l :: rest, m =>
    match parse_track l.toList with
    | some (i, sa) =>
      match m.lookup i with
      | some _ => .error (.DuplicatePatternError l)
      | none => parseLines rest (m ++ [(i, sa)])
    | none => .error (.ParseError l)

/-- pattern.rs `Pattern::parse`, over the list of lines of the file
(the file-existence check and I/O are outside the model). -/
def Pattern.parse (ls : List String) : Except Err Pattern :=
  parseLines ls []

/-- pattern.rs `Pattern::get`: HashMap lookup. -/
def Pattern.get (p : Pattern) (i : Instrument) : Option (Steps × Amplitude) :=
  p.lookup i

/-- pattern.rs `Pattern::len`: the maximum step-sequence length over all
instruments of the pattern (0 for the empty pattern). -/
def Pattern.len (p : Pattern) : Nat :=
  p.foldl (fun mx e => Nat.max mx e.2.1.length) 0

/- ### Binding (pattern.rs `Pattern::bind`) -/

/-- instrumentation.rs `SampleFile` (declared outside src/, used as an
opaque-to-this-core identifier). -/
abbrev SampleFile : Type := String

/-- The Instrumentation mapping: sample file to the instruments that
trigger it. -/
abbrev Instrumentation : Type := List (SampleFile × List Instrument)

/-- audio.rs `Tracks`: sample file to its bound (steps, amplitude). -/
abbrev Tracks : Type := List (SampleFile × (Steps × Amplitude))

/-- The closure folded over one sample file in pattern.rs
`Pattern::bind`: the accumulator carries the captured `aggregate_steps`
in its first component and the per-track `(Steps, Amplitude)` pair in
its second; an instrument found in the pattern is unioned into both and
its amplitude taken into the minimum, an absent instrument leaves the
accumulator unchanged. -/
def bindInnerStep (p : Pattern) (acc : Steps × (Steps × Amplitude))
    (instrument : Instrument) : Steps × (Steps × Amplitude) :=
  match p.get instrument with
  | some sa => (acc.1.union sa.1, (acc.2.1.union sa.1, Amplitude.min acc.2.2 sa.2))
  | none => acc

/-- The per-sample-file body of pattern.rs `Pattern::bind`: fold the
instruments of the sample file from
`(Steps::zeros(self.len()), Amplitude::max())` (with the running
`aggregate_steps` threaded alongside) and append the resulting track. -/
def bindOuterStep (p : Pattern) (st : Steps × Tracks)
    (sf : SampleFile × List Instrument) : Steps × Tracks :=
  let folded := sf.2.foldl (bindInnerStep p) (st.1, (Steps.zeros p.len, Amplitude.max))
  (folded.1, st.2 ++ [(sf.1, folded.2)])

/-- pattern.rs `Pattern::bind`: for each sample file fold over its
instruments, collecting the tracks; the running `aggregate_steps` of the
source is threaded through the fold exactly as in the code and dropped
at the end (the code never reads it). -/
def Pattern.bind (p : Pattern) (instrumentation : Instrumentation) : Tracks :=
  (instrumentation.foldl (bindOuterStep p) (Steps.zeros p.len, [])).2

/-- Modelled from the spec (section 4.3): the per-sample-file fold the
specification describes for `Pattern::bind`, without the dead
`aggregate_steps` byproduct — start from
`(StepSequence::zeros(pattern.len()), Amplitude::max())`, union each
present instrument and take the minimum amplitude, skip absent
instruments. Stated for comparison with `Pattern.bind`. -/
def bindSpecStep (p : Pattern) (acc : Steps × Amplitude)
    (instrument : Instrument) : Steps × Amplitude :=
  match p.get instrument with
  | some sa => (acc.1.union sa.1, Amplitude.min acc.2 sa.2)
  | none => acc

/-- Modelled from the spec (section 4.3), continued: the whole fold the
specification describes for one sample file. -/
def bindTrackSpec (p : Pattern) (instruments : List Instrument) : Steps × Amplitude :=
  instruments.foldl (bindSpecStep p) (Steps.zeros p.len, Amplitude.max)

/- ### Tempo and mixing (audio.rs) -/

/-- audio.rs `Tempo::step_duration`: seconds (as ℚ) of `beats` sixteenth
steps at the given BPM, `beats * 15.0 / bpm`. -/
def step_duration (bpm : Nat) (beats : Nat) : ℚ :=
  (beats : ℚ) * 15 / (bpm : ℚ)

/-- audio.rs `impl From<u16> for Tempo`: wraps the given u16 unchanged. -/
def tempoFrom (v : Fin 65536) : Nat := v.val

/-- audio.rs `Tempo::delay_factor`: `-1.0 / 120.0 * bpm + 2.0`. -/
def delay_factor (bpm : Nat) : ℚ := -1 / 120 * (bpm : ℚ) + 2

/-- audio.rs `Tempo::delay_pad_duration`. -/
def delay_pad_duration (bpm : Nat) : ℚ := step_duration bpm 1 * delay_factor bpm

/-- One scheduled copy produced by audio.rs `Sources::mix`: a sample
handle, the amplification applied to it, and its delay in seconds. -/
structure ScheduledCopy : Type where
  sample : String
  amp : ℚ
  delay : ℚ
  deriving DecidableEq

/-- audio.rs `Sources`: resolved sample handle to (steps, amplitude). -/
abbrev Sources : Type := List (String × (Steps × Amplitude))

/-- audio.rs `Sources::mix`: for every source and every step index, skip
inactive steps (`continue`) and schedule the amplified sample delayed by
`step_duration(1) * i`. The additive mix is modelled as the list of
scheduled copies handed to the mixer controller. -/
def Sources.mix (tempo : Nat) (sources : Sources) : List ScheduledCopy :=
  sources.flatMap (fun sf =>
    sf.2.1.enum.filterMap (fun is =>
      if is.2.1 ≠ 0 then
        some ⟨sf.1, sf.2.2, step_duration tempo 1 * (is.1 : ℚ)⟩
      else none))

/-! ## Helper lemmas -/

lemma union_getD (a b : Steps) (i : Nat) (ha : i < a.length) (hb : i < b.length) :
    (a.union b).getD i (0, 0) =
      if (a.getD i (0, 0)).1 > (b.getD i (0, 0)).1 then a.getD i (0, 0)
      else b.getD i (0, 0) := by
  induction a generalizing b i with
  | nil => simp at ha
  | cons x xs ih =>
    cases b with
    | nil => simp at hb
    | cons y ys =>
      cases i with
      | zero => simp [Steps.union]
      | succ n =>
        simp only [Steps.union, List.zipWith_cons_cons, List.getD_cons_succ]
        exact ih ys n (by simpa using ha) (by simpa using hb)

lemma union_length (a b : Steps) :
    (a.union b).length = Nat.min a.length b.length :=
  List.length_zipWith _ a b

lemma union_self (a : Steps) : a.union a = a := by
  induction a with
  | nil => rfl
  | cons x xs ih =>
    simp only [Steps.union, List.zipWith_cons_cons, lt_irrefl, if_false]
    simpa [Steps.union] using ih

/-! ## Claims -/

/-- Claim C2: for all step sequences A and B, union combines elementwise,
keeping the step of A exactly when its velocity is strictly greater and
the step of B otherwise (exact ties keep B, the `other` operand); the
result has the length of the shorter sequence, trailing steps of the
longer being dropped. -/
theorem union_keeps_higher_velocity_and_truncates (a b : Steps) :
    (a.union b).length = Nat.min a.length b.length ∧
    ∀ i, i < a.length → i < b.length →
      (a.union b).getD i (0, 0) =
        if (a.getD i (0, 0)).1 > (b.getD i (0, 0)).1 then a.getD i (0, 0)
        else b.getD i (0, 0) :=
  ⟨union_length a b, fun i ha hb => union_getD a b i ha hb⟩

/-- Witness for C2 at a concrete input: a two-step sequence unioned with
a one-step sequence truncates to one step and keeps the higher-velocity
step there. -/
theorem union_keeps_higher_velocity_and_truncates_witness :
    (Steps.union [(0, 0), (255, 440)] [(7, 1)]).length = 1 ∧
    (Steps.union [(0, 0), (255, 440)] [(7, 1)]).getD 0 (0, 0) = (7, 1) := by
  have h := union_keeps_higher_velocity_and_truncates [(0, 0), (255, 440)] [(7, 1)]
  refine ⟨by simpa using h.1, ?_⟩
  have h2 := h.2 0 (by decide) (by decide)
  rw [h2]
  decide

/-- Claim C9: union of equal-length sequences is commutative at every
position where the velocities differ (ties favour the right operand),
and union is idempotent. -/
theorem union_comm_except_ties_idempotent (a b : Steps) (h : a.length = b.length) :
    (∀ i, i < a.length →
        (a.getD i (0, 0)).1 ≠ (b.getD i (0, 0)).1 →
          (a.union b).getD i (0, 0) = (b.union a).getD i (0, 0)) ∧
    a.union a = a := by
  refine ⟨fun i hi hne => ?_, union_self a⟩
  have hb : i < b.length := h ▸ hi
  rw [union_getD a b i hi hb, union_getD b a i hb hi]
  by_cases hgt : (a.getD i (0, 0)).1 > (b.getD i (0, 0)).1
  · rw [if_pos hgt, if_neg (by omega)]
  · rw [if_neg hgt, if_pos (by omega)]

/-- Witness for C9 at a concrete input: sequences of equal length 1 with
differing velocities commute there, and union with itself is identity. -/
theorem union_comm_except_ties_idempotent_witness :
    (Steps.union [(255, 440)] [(0, 0)]).getD 0 (0, 0) =
      (Steps.union [(0, 0)] [(255, 440)]).getD 0 (0, 0) ∧
    Steps.union [(255, 440)] [(255, 440)] = [(255, 440)] := by
  have h := union_comm_except_ties_idempotent [(255, 440)] [(0, 0)] rfl
  exact ⟨h.1 0 (by decide) (by decide), h.2⟩

/-- Claim C5: step_duration is beats · 15 / bpm seconds; at 120 BPM one
step lasts 0.125 s and at 60 BPM sixteen steps last 4 s. -/
theorem step_duration_formula (b n : Nat) (hb : 0 < b) :
    step_duration b n = (n : ℚ) * 15 / (b : ℚ) ∧
    step_duration 120 1 = 1 / 8 ∧
    step_duration 60 16 = 4 := by
  refine ⟨rfl, ?_, ?_⟩ <;> norm_num [step_duration]

/-- Witness for C5 at a concrete tempo. -/
theorem step_duration_formula_witness :
    step_duration 120 1 = 1 / 8 :=
  (step_duration_formula 120 1 (by decide)).2.1

lemma bindInner_snd (p : Pattern) (insts : List Instrument) :
    ∀ (agg : Steps) (acc : Steps × Amplitude),
      (insts.foldl (bindInnerStep p) (agg, acc)).2 =
        insts.foldl (bindSpecStep p) acc := by
  induction insts with
  | nil => intro agg acc; rfl
  | cons i rest ih =>
    intro agg acc
    simp only [List.foldl_cons, bindInnerStep, bindSpecStep]
    cases hg : p.get i with
    | none => exact ih agg acc
    | some sa => exact ih (agg.union sa.1) (acc.1.union sa.1, Amplitude.min acc.2 sa.2)

lemma bindOuter_snd (p : Pattern) (instrumentation : Instrumentation) :
    ∀ (agg : Steps) (tracks : Tracks),
      (instrumentation.foldl (bindOuterStep p) (agg, tracks)).2 =
        tracks ++ instrumentation.map (fun sf => (sf.1, bindTrackSpec p sf.2)) := by
  induction instrumentation with
  | nil => intro agg tracks; simp
  | cons sf rest ih =>
    intro agg tracks
    simp only [List.foldl_cons, List.map_cons, bindOuterStep]
    rw [ih, bindInner_snd]
    simp [bindTrackSpec]

/-- The concrete pattern of the C1 example: `hihat1` with steps `1010`
at amplitude 1.0 and `hihat2` with steps `0101` at amplitude 0.5. -/
def hihatPattern : Pattern :=
  [("hihat1", ([(255, 440), (0, 0), (255, 440), (0, 0)], 1)),
   ("hihat2", ([(0, 0), (255, 440), (0, 0), (255, 440)], 1 / 2))]

/-- The concrete instrumentation of the C1 example: both hi-hat
instruments mapped to `hat.wav`. -/
def hatInstrumentation : Instrumentation :=
  [("hat.wav", ["hihat1", "hihat2"])]

/-- Claim C1: bind produces, for each sample file, exactly the track of
the specified fold from `(Steps.zeros p.len, Amplitude.max)` (union the
steps of each instrument found in the pattern, keep the minimum
amplitude); an instrument absent from the pattern leaves the fold
accumulator unchanged; and on the hi-hat example the track bound to
`hat.wav` has steps `1111` (all velocity 255) and amplitude 0.5. -/
theorem bind_is_per_sample_fold :
    (∀ (p : Pattern) (instrumentation : Instrumentation),
        p.bind instrumentation =
          instrumentation.map (fun sf => (sf.1, bindTrackSpec p sf.2))) ∧
    (∀ (p : Pattern) (insts : List Instrument) (i : Instrument),
        p.get i = none → bindTrackSpec p (insts ++ [i]) = bindTrackSpec p insts) ∧
    Pattern.bind hihatPattern hatInstrumentation =
      [("hat.wav", ([(255, 440), (255, 440), (255, 440), (255, 440)], 1 / 2))] := by
  have hmap : ∀ (p : Pattern) (instrumentation : Instrumentation),
      p.bind instrumentation =
        instrumentation.map (fun sf => (sf.1, bindTrackSpec p sf.2)) := by
    intro p instrumentation
    unfold Pattern.bind
    rw [bindOuter_snd]
    simp
  refine ⟨hmap, fun p insts i hnone => ?_, ?_⟩
  · unfold bindTrackSpec
    rw [List.foldl_append]
    simp [bindSpecStep, hnone]
  · have hget1 : hihatPattern.get "hihat1" =
        some ([(255, 440), (0, 0), (255, 440), (0, 0)], 1) := rfl
    have hget2 : hihatPattern.get "hihat2" =
        some ([(0, 0), (255, 440), (0, 0), (255, 440)], 1 / 2) := rfl
    have hlen : hihatPattern.len = 4 := rfl
    rw [hmap]
    norm_num [hatInstrumentation, bindTrackSpec, bindSpecStep, hget1, hget2,
      hlen, Steps.zeros, Steps.union, Amplitude.max, Amplitude.min,
      List.replicate, List.zipWith_cons_cons]

/-- Witness for C1 at a concrete input: an instrument absent from the
hi-hat pattern leaves the bound track unchanged. -/
theorem bind_is_per_sample_fold_witness :
    bindTrackSpec hihatPattern ["hihat1", "bongo"] =
      bindTrackSpec hihatPattern ["hihat1"] := by
  have h := bind_is_per_sample_fold.2.1 hihatPattern ["hihat1"] "bongo" (by decide)
  simpa using h

/-- Claim C3: mix schedules, for every source and every active step
(velocity > 0) at index i, one copy of the sample amplified by the track
amplitude and delayed by `step_duration(1) * i`, and nothing else; a
single active step at index 3 at 120 BPM and amplitude 1 yields one copy
delayed 0.375 s. -/
theorem mix_schedules_exactly_active_steps :
    (∀ (tempo : Nat) (sources : Sources) (c : ScheduledCopy),
        c ∈ Sources.mix tempo sources ↔
          ∃ e ∈ sources, ∃ i : Nat, ∃ st : Step, e.2.1[i]? = some st ∧ 0 < st.1 ∧
            c = ⟨e.1, e.2.2, step_duration tempo 1 * (i : ℚ)⟩) ∧
    Sources.mix 120 [("s", ([(0, 0), (0, 0), (0, 0), (255, 440)], 1))] =
      [⟨"s", 1, 3 / 8⟩] := by
  constructor
  · intro tempo sources c
    simp only [Sources.mix, List.mem_flatMap, List.mem_filterMap,
      List.mem_enum_iff_getElem?]
    constructor
    · rintro ⟨e, he, ⟨i, st⟩, hmem, hif⟩
      by_cases hst : st.1 ≠ 0
      · rw [if_pos hst] at hif
        exact ⟨e, he, i, st, hmem, Nat.pos_of_ne_zero hst, (Option.some.inj hif).symm⟩
      · rw [if_neg hst] at hif
        exact absurd hif (by simp)
    · rintro ⟨e, he, i, st, hmem, hpos, hc⟩
      refine ⟨e, he, (i, st), hmem, ?_⟩
      rw [if_pos (Nat.pos_iff_ne_zero.mp hpos), hc]
  · norm_num [Sources.mix, step_duration, List.enum, List.enumFrom,
      List.filterMap_cons]

lemma stepOf_isSome_of_ne_sep {c : Char} (hc : (stepTok c).isSome) (hne : c ≠ '|') :
    (stepOf c).isSome := by
  unfold stepTok at hc
  unfold stepOf stepTok
  split_ifs at hc ⊢ <;> simp_all

lemma parseStepsAux_full (rest : List Char)
    (hrest : rest = [] ∨ ∃ c rs, rest = c :: rs ∧ stepTok c = none) :
    ∀ (ts : List Char), (∀ c ∈ ts, (stepTok c).isSome) →
      ∀ acc, parseStepsAux (ts ++ rest) acc = (rest, acc ++ ts.filterMap stepOf) := by
  intro ts
  induction ts with
  | nil =>
    intro _ acc
    rcases hrest with h | ⟨c, rs, hr, hc⟩
    · subst h; simp [parseStepsAux]
    · subst hr; simp [parseStepsAux, hc]
  | cons c cs ih =>
    intro hts acc
    have hc : (stepTok c).isSome := hts c (List.mem_cons_self c cs)
    have hcs : ∀ d ∈ cs, (stepTok d).isSome :=
      fun d hd => hts d (List.mem_cons_of_mem c hd)
    cases hsc : stepTok c with
    | none => rw [hsc] at hc; simp at hc
    | some o =>
      cases o with
      | none =>
        simp only [List.cons_append, parseStepsAux, hsc, List.append_eq]
        rw [ih hcs acc, List.filterMap_cons]
        simp [stepOf, hsc]
      | some st =>
        simp only [List.cons_append, parseStepsAux, hsc, List.append_eq]
        rw [ih hcs (acc ++ [st]), List.filterMap_cons]
        simp [stepOf, hsc]

lemma parse_steps_full (ts rest : List Char)
    (hts : ∀ c ∈ ts, (stepTok c).isSome)
    (hrest : rest = [] ∨ ∃ c rs, rest = c :: rs ∧ stepTok c = none) :
    parse_steps (ts ++ rest) =
      if 0 < (ts.filterMap stepOf).length then some (rest, ts.filterMap stepOf)
      else none := by
  cases ts with
  | nil =>
    simp only [List.nil_append, List.filterMap_nil, List.length_nil]
    rw [if_neg (by omega)]
    rcases hrest with h | ⟨c, rs, hr, hc⟩
    · subst h; rfl
    · subst hr; simp [parse_steps, hc]
  | cons c cs =>
    have hc : (stepTok c).isSome := hts c (List.mem_cons_self c cs)
    have haux := parseStepsAux_full rest hrest (c :: cs) hts []
    cases hsc : stepTok c with
    | none => rw [hsc] at hc; simp at hc
    | some o =>
      simp only [List.cons_append, parse_steps, hsc, Option.isNone_some,
        Bool.false_eq_true, if_false]
      rw [List.cons_append] at haux
      rw [haux]
      simp

lemma filterMap_stepOf_length (ts : List Char)
    (hts : ∀ c ∈ ts, (stepTok c).isSome) :
    (ts.filterMap stepOf).length = (ts.filter (fun c => !(c == '|'))).length := by
  induction ts with
  | nil => rfl
  | cons c cs ih =>
    have hc : (stepTok c).isSome := hts c (List.mem_cons_self c cs)
    have hcs : ∀ d ∈ cs, (stepTok d).isSome :=
      fun d hd => hts d (List.mem_cons_of_mem c hd)
    by_cases h : c = '|'
    · subst h
      simp [List.filterMap_cons, List.filter_cons, stepOf, stepTok, ih hcs]
    · obtain ⟨st, hst⟩ := Option.isSome_iff_exists.mp (stepOf_isSome_of_ne_sep hc h)
      simp [List.filterMap_cons, List.filter_cons, hst, h, ih hcs]

/-- Claim C4: on a run of step tokens followed by input that starts with
a non-token (or ends), parse_steps succeeds exactly when at least one
non-separator token is present, yielding one step per non-separator
token (so separators contribute no step and cause no failure); `x`
yields velocity 255 and frequency 440, `-` yields velocity 0 and
frequency 0; with zero step tokens it is a parse error. -/
theorem parse_steps_token_semantics (ts rest : List Char)
    (hts : ∀ c ∈ ts, (stepTok c).isSome)
    (hrest : rest = [] ∨ ∃ c rs, rest = c :: rs ∧ stepTok c = none) :
    parse_steps (ts ++ rest) =
      (if 0 < (ts.filterMap stepOf).length then some (rest, ts.filterMap stepOf)
       else none) ∧
    (ts.filterMap stepOf).length = (ts.filter (fun c => !(c == '|'))).length ∧
    stepOf 'x' = some (255, 440) ∧ stepOf '-' = some (0, 0) ∧ stepOf '|' = none :=
  ⟨parse_steps_full ts rest hts hrest, filterMap_stepOf_length ts hts,
   rfl, rfl, rfl⟩

/-- Witness for C4 at the concrete line fragment `|x-x-|`: four steps,
alternating active (255, 440) and silent (0, 0), separators dropped. -/
theorem parse_steps_token_semantics_witness :
    parse_steps "|x-x-|".toList =
      some ([], [(255, 440), (0, 0), (255, 440), (0, 0)]) := by
  have h := (parse_steps_token_semantics "|x-x-|".toList [] (by decide)
    (Or.inl rfl)).1
  simpa [stepOf, stepTok, List.filterMap_cons] using h

/-- Claim C6: parse_amplitude accepts a parsed number exactly when it
lies in [0, 1] inclusive and fails on any number outside that range
(so on −1.0 and on 1.1 in particular); when no number is present it
accepts with no value and the amplitude defaults to 1. -/
theorem parse_amplitude_range_and_default :
    (∀ (v : ℚ) (s r : List Char), parseFloat s = some (v, r) →
        (0 ≤ v ∧ v ≤ 1 → parse_amplitude s = some (r, some v)) ∧
        (¬(0 ≤ v ∧ v ≤ 1) → parse_amplitude s = none)) ∧
    (∀ s : List Char, parseFloat s = none → parse_amplitude s = some (s, none)) ∧
    Amplitude.defaulting none = 1 ∧
    parse_amplitude "-1.0".toList = none ∧
    parse_amplitude "1.1".toList = none := by
  refine ⟨?_, ?_, rfl, ?_, ?_⟩
  · intro v s r hp
    constructor
    · intro hin
      simp only [parse_amplitude, hp]
      rw [if_pos hin]
    · intro hout
      simp only [parse_amplitude, hp]
      rw [if_neg hout]
  · intro s hp
    simp only [parse_amplitude, hp]
  · have h : parseFloat "-1.0".toList =
        some ((-1 : ℚ) * ((1 : ℚ) + (0 : ℚ) / (10 : ℚ) ^ (1 : Nat)), []) := rfl
    simp only [parse_amplitude, h]
    rw [if_neg (by norm_num)]
  · have h : parseFloat "1.1".toList =
        some ((1 : ℚ) * ((1 : ℚ) + (1 : ℚ) / (10 : ℚ) ^ (1 : Nat)), []) := rfl
    simp only [parse_amplitude, h]
    rw [if_neg (by norm_num)]

/-- Witness for C6 at a concrete input: 0.5 is accepted and parsed as
one half. -/
theorem parse_amplitude_range_and_default_witness :
    parse_amplitude "0.5".toList = some ([], some (1 / 2)) := by
  have h := (parse_amplitude_range_and_default.1
    ((1 : ℚ) * ((0 : ℚ) + (5 : ℚ) / (10 : ℚ) ^ (1 : Nat))) "0.5".toList [] rfl).1
    (by norm_num)
  rw [h]
  norm_num

/-- The claim C8 as stated is false on the code at the concrete input 0:
`From<u16>` is total and validates nothing, so a Tempo with BPM 0 is
accepted, and delay_factor evaluates at BPM 0 (to 2). -/
theorem tempo_zero_accepted :
    tempoFrom 0 = 0 ∧ delay_factor 0 = 2 :=
  ⟨rfl, by norm_num [delay_factor]⟩

/-- Claim C8 (amended): Tempo construction performs no validation —
every u16, including 0, is wrapped unchanged, and delay_factor is
evaluable at BPM 0, where it equals 2. -/
theorem tempo_from_is_unvalidated :
    (∀ v : Fin 65536, tempoFrom v = v.val) ∧
    tempoFrom 0 = 0 ∧
    delay_factor (tempoFrom 0) = 2 := by
  refine ⟨fun v => rfl, rfl, ?_⟩
  norm_num [tempoFrom, delay_factor]

/-- The instrument that a line parses to, when it parses. -/
def instrOf (l : String) : Option Instrument :=
  (parse_track l.toList).map Prod.fst

/-- The line identified by a duplicate-instrument failure, if any. -/
def dupErrLine : Except Err Pattern → Option String
  | .error (.DuplicatePatternError l) => some l
  | _ => none

/-- The line identified by a parse failure, if any. -/
def parseErrLine : Except Err Pattern → Option String
  | .error (.ParseError l) => some l
  | _ => none

lemma lookup_eq_none_keys (m : Pattern) (i : Instrument)
    (h : i ∉ m.map Prod.fst) : m.lookup i = none := by
  induction m with
  | nil => rfl
  | cons e rest ih =>
    obtain ⟨k, b⟩ := e
    simp only [List.map_cons, List.mem_cons] at h
    push_neg at h
    simp [List.lookup, beq_eq_false_iff_ne.mpr h.1, ih h.2]

lemma lookup_isSome_keys (m : Pattern) (i : Instrument)
    (h : i ∈ m.map Prod.fst) : ∃ v, m.lookup i = some v := by
  induction m with
  | nil => simp at h
  | cons e rest ih =>
    obtain ⟨k, b⟩ := e
    simp only [List.map_cons, List.mem_cons] at h
    rcases h with h1 | h2
    · exact ⟨b, by simp [List.lookup, h1]⟩
    · by_cases hik : i = k
      · exact ⟨b, by simp [List.lookup, hik]⟩
      · obtain ⟨v, hv⟩ := ih h2
        exact ⟨v, by simp [List.lookup, beq_eq_false_iff_ne.mpr hik, hv]⟩

lemma parseLines_wellformed_front (rest : List String) :
    ∀ (pre : List String) (m : Pattern),
      (∀ l ∈ pre, (parse_track l.toList).isSome) →
      (m.map Prod.fst ++ pre.filterMap instrOf).Nodup →
      parseLines (pre ++ rest) m =
        parseLines rest (m ++ pre.filterMap (fun l => parse_track l.toList)) := by
  intro pre
  induction pre with
  | nil => intro m _ _; simp
  | cons l pre ih =>
    intro m hall hnd
    obtain ⟨t, ht⟩ := Option.isSome_iff_exists.mp (hall l (List.mem_cons_self l pre))
    obtain ⟨i, sa⟩ := t
    have hio : instrOf l = some i := by unfold instrOf; rw [ht]; rfl
    rw [List.filterMap_cons, hio, List.nodup_middle] at hnd
    have hnotin : i ∉ m.map Prod.fst ++ pre.filterMap instrOf :=
      (List.nodup_cons.mp hnd).1
    have hlk : m.lookup i = none :=
      lookup_eq_none_keys m i fun hm => hnotin (List.mem_append.mpr (Or.inl hm))
    simp only [List.cons_append, parseLines, ht, hlk, List.append_eq]
    rw [ih (m ++ [(i, sa)]) (fun d hd => hall d (List.mem_cons_of_mem l hd)) ?_]
    · rw [List.filterMap_cons, ht]
      simp
    · simp only [List.map_append, List.map_cons, List.map_nil, List.append_assoc,
        List.singleton_append]
      rw [List.nodup_middle]
      exact hnd

lemma parseLines_stops (l : String) (hlt : parse_track l.toList = none)
    (post : List String) :
    ∀ (pre : List String) (m : Pattern),
      ∃ e, parseLines (pre ++ l :: post) m = .error e := by
  intro pre
  induction pre with
  | nil =>
    intro m
    have hlt2 : parse_track l.data = none := hlt
    exact ⟨.ParseError l, by simp [parseLines, hlt2]⟩
  | cons q pre ih =>
    intro m
    cases hq : parse_track q.toList with
    | none =>
      have hq2 : parse_track q.data = none := hq
      exact ⟨.ParseError q, by simp [parseLines, hq2]⟩
    | some t =>
      obtain ⟨i, sa⟩ := t
      have hq2 : parse_track q.data = some (i, sa) := hq
      cases hlk : m.lookup i with
      | some v =>
        exact ⟨.DuplicatePatternError q, by simp [parseLines, hq2, hlk]⟩
      | none =>
        obtain ⟨e, he⟩ := ih (m ++ [(i, sa)])
        exact ⟨e, by
          simp only [List.cons_append, parseLines, hq, hlk, List.append_eq]
          exact he⟩

lemma parseLines_ok_length :
    ∀ (ls : List String) (m p : Pattern),
      parseLines ls m = .ok p → p.length = m.length + ls.length := by
  intro ls
  induction ls with
  | nil =>
    intro m p h
    simp only [parseLines, Except.ok.injEq] at h
    subst h
    simp
  | cons q rest ih =>
    intro m p h
    cases hq : parse_track q.toList with
    | none =>
      have hq2 : parse_track q.data = none := hq
      simp [parseLines, hq2] at h
    | some t =>
      obtain ⟨i, sa⟩ := t
      have hq2 : parse_track q.data = some (i, sa) := hq
      cases hlk : m.lookup i with
      | some v => simp [parseLines, hq2, hlk] at h
      | none =>
        simp only [parseLines, hq, hlk] at h
        have := ih (m ++ [(i, sa)]) p h
        simp only [List.length_append, List.length_cons, List.length_nil] at this ⊢
        omega

/-- The claim C7 as stated is false on the code at a concrete file: the
instrument `kick` appears (parses) on two lines, yet Pattern.parse
reports the earlier unparseable line with a ParseError, not a
duplicate-instrument error. -/
theorem duplicate_error_preempted_by_parse_error :
    instrOf "kick x" = some "kick" ∧
    Pattern.parse ["kick x", "@@", "kick x"] = .error (.ParseError "@@") ∧
    dupErrLine (Pattern.parse ["kick x", "@@", "kick x"]) = none :=
  ⟨rfl, rfl, rfl⟩

/-- Claim C7 (amended): in a pattern file whose lines before and
including the first repetition all parse as tracks, a repeated
instrument name makes Pattern.parse fail with a duplicate-instrument
error identifying the repeating line, and a Pattern is never
returned. -/
theorem duplicate_instrument_fails (pre post : List String) (l : String)
    (hall : ∀ q ∈ pre, (parse_track q.toList).isSome)
    (hl : (parse_track l.toList).isSome)
    (hnd : (pre.filterMap instrOf).Nodup)
    (hdup : ∃ i, instrOf l = some i ∧ i ∈ pre.filterMap instrOf) :
    Pattern.parse (pre ++ l :: post) = .error (.DuplicatePatternError l) := by
  obtain ⟨i, hio, hmem⟩ := hdup
  obtain ⟨t, ht⟩ := Option.isSome_iff_exists.mp hl
  obtain ⟨i2, sa⟩ := t
  have hi2 : i2 = i := by
    simp only [instrOf, ht, Option.map_some] at hio
    exact Option.some.inj hio
  rw [hi2] at ht
  unfold Pattern.parse
  rw [parseLines_wellformed_front (l :: post) pre [] hall (by simpa using hnd)]
  have hkeys : ((([] : Pattern) ++
      pre.filterMap (fun q => parse_track q.toList)).map Prod.fst) =
      pre.filterMap instrOf := by
    rw [List.nil_append, List.map_filterMap]
    rfl
  obtain ⟨v, hv⟩ := lookup_isSome_keys _ i (by rw [hkeys]; exact hmem)
  simp only [parseLines, ht, hv]

/-- Witness for C7 (amended) at the concrete file of the claim: two
lines both declaring instrument `kick`. -/
theorem duplicate_instrument_fails_witness :
    Pattern.parse ["kick x", "kick x"] = .error (.DuplicatePatternError "kick x") := by
  have h := duplicate_instrument_fails ["kick x"] [] "kick x"
    (by decide) (by decide) (by decide) ⟨"kick", by decide, by decide⟩
  simpa using h

/-- The claim C10 as stated is false on the code at a concrete file: a
file containing an empty line fails, but with a duplicate-instrument
error for an earlier offending line, not with a parse error identifying
the blank line. -/
theorem blank_line_error_not_identified :
    ("" ∈ ["kick x", "kick x", ""]) ∧
    Pattern.parse ["kick x", "kick x", ""] =
      .error (.DuplicatePatternError "kick x") ∧
    parseErrLine (Pattern.parse ["kick x", "kick x", ""]) = none :=
  ⟨by simp, rfl, rfl⟩

/-- Claim C10 (amended): a blank line (empty, or only spaces and tabs)
never parses as a track, because parse_instrument requires a
non-whitespace character; a pattern file containing a blank line always
fails to parse, and when every earlier line parses with distinct
instruments the failure is a parse error identifying the blank line;
a successfully parsed pattern is empty exactly when the file had no
lines, so the only file with no track lines that parses is the empty
file, whose Pattern has len 0. -/
theorem blank_lines_fail_parse (l : String)
    (hl : ∀ c ∈ l.toList, isSpaceTab c = true) :
    parse_track l.toList = none ∧
    (∀ pre post : List String, ∃ e, Pattern.parse (pre ++ l :: post) = .error e) ∧
    (∀ pre post : List String,
        (∀ q ∈ pre, (parse_track q.toList).isSome) →
        (pre.filterMap instrOf).Nodup →
        Pattern.parse (pre ++ l :: post) = .error (.ParseError l)) ∧
    (∀ (ls : List String) (p : Pattern),
        Pattern.parse ls = .ok p → (p = [] ↔ ls = [])) ∧
    Pattern.parse ([] : List String) = .ok [] ∧
    Pattern.len [] = 0 := by
  have htrack : parse_track l.toList = none := by
    have hdrop : space0 l.toList = [] := List.dropWhile_eq_nil_iff.mpr hl
    have hdrop2 : space0 l.data = [] := hdrop
    simp [parse_track, parse_instrument, hdrop2]
  refine ⟨htrack, ?_, ?_, ?_, rfl, rfl⟩
  · intro pre post
    exact parseLines_stops l htrack post pre []
  · intro pre post hall hnd
    unfold Pattern.parse
    rw [parseLines_wellformed_front (l :: post) pre [] hall (by simpa using hnd)]
    simp only [parseLines, htrack]
  · intro ls p h
    have hlen := parseLines_ok_length ls [] p h
    simp only [List.length_nil, Nat.zero_add] at hlen
    constructor
    · intro hp
      subst hp
      exact List.length_eq_zero.mp hlen.symm
    · intro hls
      subst hls
      exact List.length_eq_zero.mp (by simpa using hlen)

/-- Witness for C10 (amended) at concrete inputs: the empty line fails
to parse as a track, and a file whose well-formed first line precedes a
whitespace-only line fails with a parse error identifying the blank
line. -/
theorem blank_lines_fail_parse_witness :
    parse_track "".toList = none ∧
    Pattern.parse ["kick x", "  "] = .error (.ParseError "  ") := by
  have h0 := blank_lines_fail_parse "" (by decide)
  have h := blank_lines_fail_parse "  " (by decide)
  refine ⟨h0.1, ?_⟩
  have h2 := h.2.2.1 ["kick x"] [] (by decide) (by decide)
  simpa using h2

end Rudiments
